import Mathlib

/-!
Verification of the JAPIRC server (`JAPIRC_CLI.server.py`) against its
natural-language specification.  The server's string processing is modelled
over `List Char`; POSIX path handling (`os.path.join`, `os.path.abspath`,
`os.path.basename`, `str.startswith`) is embedded lexically, exactly as the
Python functions behave on POSIX with no symlink resolution (Python's
`normpath`/`abspath` are purely lexical).  The filesystem is modelled as a
finite map from absolute paths to file contents (byte lists); directories are
not modelled separately, so `os.path.exists` and `os.path.isfile` coincide.
-/

namespace JAPIRC

/-- Character list of a string literal; strings in the model are `List Char`. -/
def lc (s : String) : List Char := s.data

/-- Membership test on character lists (Python's `ch in s`). -/
def chElem (c : Char) : List Char → Bool
  | [] => false
  | d :: ds => if d = c then true else chElem c ds

/-- Python's `s.startswith(pat)`: `pat` occurs at the start of `l`. -/
def startsWithChars : List Char → List Char → Bool
  | [], _ => true
  | _ :: _, [] => false
  | p :: ps, c :: cs => if p = c then startsWithChars ps cs else false

/-- Python's `pat in s` on strings: `pat` occurs contiguously inside `l`. -/
def containsSub (pat : List Char) : List Char → Bool
  | [] => startsWithChars pat []
  | c :: cs => if startsWithChars pat (c :: cs) then true else containsSub pat cs

/-- Python's `s.split(sep)` with an explicit separator and no maxsplit:
    splits on every occurrence, keeping empty pieces; `"".split(sep) = [""]`. -/
def pySplit (sep : Char) : List Char → List (List Char)
  | [] => [[]]
  | c :: cs =>
    if c = sep then [] :: pySplit sep cs
    else
      match pySplit sep cs with
      | [] => [[c]]
      | p :: ps => (c :: p) :: ps

/-- Python's `s.split(sep, maxsplit)`: at most `n` splits, rest kept whole. -/
def pySplitN (sep : Char) : Nat → List Char → List (List Char)
  | 0, l => [l]
  | _ + 1, [] => [[]]
  | n + 1, c :: cs =>
    if c = sep then [] :: pySplitN sep n cs
    else
      match pySplitN sep (n + 1) cs with
      | [] => [[c]]
      | p :: ps => (c :: p) :: ps

/-- Python's `s.strip()`: drop whitespace from both ends. -/
def pyStrip (l : List Char) : List Char :=
  ((l.dropWhile Char.isWhitespace).reverse.dropWhile Char.isWhitespace).reverse

/-- Python's `s.strip(ch)` for one character: drop `ch` from both ends. -/
def pyStripChar (ch : Char) (l : List Char) : List Char :=
  ((l.dropWhile (· = ch)).reverse.dropWhile (· = ch)).reverse

/-- Python's `s.lower()` (ASCII case folding, as used for command tokens). -/
def toLowerChars (l : List Char) : List Char := l.map Char.toLower

/-- POSIX: a path is absolute iff it starts with the separator. -/
def isAbs (p : List Char) : Bool :=
  match p with
  | [] => false
  | c :: _ => c = '/'

/-- `os.path.join(a, b)` (POSIX): an absolute `b` discards `a`; otherwise a
    single separator is inserted unless `a` is empty or already ends in one. -/
def pyJoin (a b : List Char) : List Char :=
  if isAbs b then b
  else if a = [] then b
  else if a.getLast? = some '/' then a ++ b
  else a ++ '/' :: b

/-- One component step of `os.path.normpath` on an absolute path: empty and
    `"."` components vanish, `".."` pops the previous component (or nothing at
    the root). -/
def normStep (acc : List (List Char)) (comp : List Char) : List (List Char) :=
  if comp = [] ∨ comp = lc "." then acc
  else if comp = lc ".." then acc.dropLast
  else acc ++ [comp]

/-- Normalize the component list of an absolute path. -/
def normComps (comps : List (List Char)) : List (List Char) :=
  comps.foldl normStep []

/-- The components that survive `normStep` untouched when no `".."` occurs. -/
def cleanComps (l : List (List Char)) : List (List Char) :=
  l.filter (fun c => decide (¬(c = [] ∨ c = lc ".")))

/-- Render normalized components back into an absolute path string. -/
def renderAbs (comps : List (List Char)) : List Char :=
  if comps = [] then ['/'] else (comps.map (fun c => '/' :: c)).flatten

/-- `os.path.abspath(p)` with current working directory `cwd` (assumed
    absolute): join with the cwd then normalize lexically. -/
def abspath (cwd p : List Char) : List Char :=
  renderAbs (normComps (pySplit '/' (pyJoin cwd p)))

/-- The component list contributed by the cwd when joining a relative path. -/
def cwdParts (cwd : List Char) : List (List Char) :=
  if cwd.getLast? = some '/' then pySplit '/' cwd.dropLast else pySplit '/' cwd

/-- `os.path.basename` (POSIX): everything after the last separator. -/
def basename (p : List Char) : List Char :=
  (pySplit '/' p).getLastD []

/-- The reserved-character blacklist shared by upload, download and delete
    (`invalid_chars` in the source). -/
def invalid_chars : List Char := ['/', '\\', ':', '*', '?', '"', '<', '>', '|']

/-- The filename check used identically by `handle_upload`, `handle_download`
    and `handle_delete_file`: reject if `".."` occurs in the filename or any
    reserved character occurs. -/
def validFilename (filename : List Char) : Bool :=
  !(containsSub (lc "..") filename) && invalid_chars.all (fun c => !(chElem c filename))

/-- The username check in `handle_login`: nonempty, 1-18 characters, no space,
    alphanumeric plus underscore and hyphen only. -/
def validUsername (u : List Char) : Bool :=
  !(decide (u = [])) && decide (1 ≤ u.length ∧ u.length ≤ 18) && !(chElem ' ' u) &&
    u.all (fun c => c.isAlphanum || decide (c = '_') || decide (c = '-'))

/-- `FILE_DIRECTORY`, the uploads root, relative to the server's cwd. -/
def FILE_DIRECTORY : List Char := lc "user_uploaded_files"

/-- Outcome of the path-validation portion of a file operation: either a
    rejection reply, or the operation proceeds against one resolved absolute
    path. -/
inductive PathAccess
  | rejected (msg : List Char)
  | access (absolutePath : List Char)
  deriving DecidableEq

/-- `handle_download` path logic (source lines 106-129): build
    `FILE_DIRECTORY/target/filename`, reject invalid filenames, then require
    `abspath(filepath).startswith(abspath(user_dir))`. -/
def handle_download_path (cwd target_username filename : List Char) : PathAccess :=
  let user_dir := pyJoin FILE_DIRECTORY target_username
  let filepath := pyJoin user_dir filename
  if !(validFilename filename) then .rejected (lc "Invalid filename requested.")
  else
    let abs_user_dir := abspath cwd user_dir
    let abs_filepath := abspath cwd filepath
    if startsWithChars abs_user_dir abs_filepath then .access abs_filepath
    else .rejected (lc "Error: File access denied.")

/-- `handle_delete_file` path logic (source lines 220-236): identical filename
    check and containment check, with the delete error messages. -/
def handle_delete_path (cwd target_user filename : List Char) : PathAccess :=
  let user_dir := pyJoin FILE_DIRECTORY target_user
  let filepath := pyJoin user_dir filename
  if !(validFilename filename) then .rejected (lc "Invalid filename provided.")
  else
    let abs_user_dir := abspath cwd user_dir
    let abs_filepath := abspath cwd filepath
    if startsWithChars abs_user_dir abs_filepath then .access abs_filepath
    else .rejected (lc "Error: File access denied (path violation).")

/-- `handle_list_files` (source lines 160-172): the target's directory is
    accessed (`os.listdir`) with no validation of the target username at all. -/
def handle_list_path (cwd target_username : List Char) : PathAccess :=
  .access (abspath cwd (pyJoin FILE_DIRECTORY target_username))

/-- The server-local filesystem: absolute path to file contents (bytes). -/
abbrev FS := List (List Char × List Nat)

/-- Lookup of a path in the modelled filesystem. -/
def fsLookup : FS → List Char → Option (List Nat)
  | [], _ => none
  | (k, v) :: rest, p => if k = p then some v else fsLookup rest p

/-- The 4096-byte chunked read loop shared by upload and download, with the
    list length as structural fuel. -/
def readChunksAux : Nat → List Nat → List (List Nat)
  | 0, _ => []
  | _ + 1, [] => []
  | fuel + 1, c :: cs => (c :: cs).take 4096 :: readChunksAux fuel ((c :: cs).drop 4096)

/-- All chunks produced by reading a file 4096 bytes at a time. -/
def readChunks (l : List Nat) : List (List Nat) := readChunksAux l.length l

/-- Result of `handle_download` as observed on the requester's socket. -/
inductive DownloadResult
  | rejected (msg : List Char)
  | notFound (msg : List Char)
  | sent (header : List Char) (payload : List Nat)
  deriving DecidableEq

/-- `handle_download` (source lines 106-147): after validation and the
    containment check, if the file exists the server sends the single header
    `FILE_TRANSFER:<filename>:<size>` (no trailing newline) followed by the
    concatenation of the 4096-byte chunks of the file. -/
def handle_download (fs : FS) (cwd target_username filename : List Char) :
    DownloadResult :=
  match handle_download_path cwd target_username filename with
  | .rejected m => .rejected m
  | .access p =>
    match fsLookup fs p with
    | none =>
      .notFound (lc "Error: File '" ++ filename ++ lc "' not found in " ++
        target_username ++ lc "'s directory.")
    | some contents =>
      let file_size := contents.length
      let header := lc "FILE_TRANSFER:" ++ filename ++ ':' :: lc (toString file_size)
      .sent header (readChunks contents).flatten

/-- Replies of `handle_upload`; every constructor except `success` is an
    `[Error]` reply to the uploader. -/
inductive UploadReply
  | sourceMissing
  | invalidFilename
  | alreadyExists
  | success
  deriving DecidableEq

/-- `handle_upload` (source lines 60-96): the source path is a server-local
    path supplied by the client; its basename is validated, the destination is
    `FILE_DIRECTORY/<username>/<basename>`, an existing destination is refused,
    otherwise the bytes are copied in 4096-byte chunks.  (Files-only
    filesystem model: `os.path.exists` and `os.path.isfile` coincide, and
    `os.makedirs` is implicit.) -/
def handle_upload (fs : FS) (cwd username filepath : List Char) : FS × UploadReply :=
  let user_dir := pyJoin FILE_DIRECTORY username
  match fsLookup fs (abspath cwd filepath) with
  | none => (fs, .sourceMissing)
  | some contents =>
    let filename := basename filepath
    let dest_path := pyJoin user_dir filename
    if !(validFilename filename) then (fs, .invalidFilename)
    else if (fsLookup fs (abspath cwd dest_path)).isSome then (fs, .alreadyExists)
    else ((abspath cwd dest_path, (readChunks contents).flatten) :: fs, .success)

/-- How `handle_delete_file` (source lines 193-218) parses its space-split
    command parts: 2 parts delete the caller's own file, 3 parts are the
    operator form (permission error for non-operators), anything else is a
    usage error. -/
inductive DeleteParse
  | own (filename : List Char)
  | other (target filename : List Char)
  | permissionDenied
  | usage
  deriving DecidableEq

/-- The argument-count dispatch at the top of `handle_delete_file`. -/
def delete_parse (is_op : Bool) (command_parts : List (List Char)) : DeleteParse :=
  match command_parts with
  | [_, filename] => .own filename
  | [_, target, filename] => if !is_op then .permissionDenied else .other target filename
  | _ => .usage

/-- The actions `handle_client` (source lines 323-445) can take for one
    received line, after stripping and command recognition. -/
inductive Dispatch
  | ignored
  | usage (msg : List Char)
  | errorReply (msg : List Char)
  | uploadReq (path : List Char)
  | downloadReq (target filename : List Char)
  | filesReq (target : List Char)
  | deleteReq (parts : List (List Char))
  | permissionDenied
  | serverCommand (raw : List Char)
  | listUsers
  | helpText
  | exitLoop
  | unknown (command : List Char)
  | chat (text : List Char)
  deriving DecidableEq

/-- The six commands gated on operator status in `handle_client`
    (source line 386). -/
def op_gated_commands : List (List Char) :=
  [lc "/kick", lc "/stop", lc "/restart", lc "/listops", lc "/op", lc "/deop"]

/-- `format_for_client(message, pre)`: current time, prefix tag, message. -/
def format_for_client (now message pre : List Char) : List Char :=
  now ++ ' ' :: pre ++ ' ' :: message

/-- The per-line dispatch of `handle_client` (source lines 336-445): strip the
    line; an empty result is silently skipped (`continue`); a leading `/`
    selects a command by its lowercased first token, with operator commands
    gated on membership in `ops`; any other line is a chat message, rejected
    only when longer than 512 characters, otherwise timestamped, attributed and
    broadcast with the sender excluded. -/
def dispatch (ops : List (List Char)) (username now message : List Char) : Dispatch :=
  let msg_content := pyStrip message
  if msg_content = [] then .ignored
  else if msg_content.head? = some '/' then
    let command := toLowerChars ((pySplitN ' ' 1 msg_content).headD [])
    if command = lc "/upload" then
      match pySplitN ' ' 1 msg_content with
      | [_, rest] => .uploadReq (pyStripChar '"' rest)
      | _ => .usage (lc "Usage: /upload <server_source_filepath>")
    else if command = lc "/download" then
      match pySplitN ' ' 2 msg_content with
      | [_, target, fname] => .downloadReq target (pyStripChar '"' fname)
      | _ => .usage (lc "Usage: /download <username> <filename>")
    else if command = lc "/files" then
      match pySplitN ' ' 1 msg_content with
      | [_, target] => .filesReq target
      | _ => .usage (lc "Usage: /files <username>")
    else if command = lc "/delete" then
      .deleteReq (pySplit ' ' msg_content)
    else if command ∈ op_gated_commands then
      if username ∈ ops then .serverCommand msg_content else .permissionDenied
    else if command = lc "/list" then .listUsers
    else if command = lc "/help" then .helpText
    else if command = lc "/exit" then .exitLoop
    else .unknown command
  else
    if 512 < msg_content.length then
      .errorReply (lc "Message cannot exceed 512 characters.")
    else
      .chat (format_for_client now msg_content ('[' :: username ++ [']']))

/-- The shared mutable server state: the session registry `clients` (socket id
    to username), the operator list `ops`, the credential map, and two flags
    recording that a stop or restart has been scheduled. -/
structure ServerState where
  clients : List (Nat × List Char)
  ops : List (List Char)
  creds : List (List Char × List Char)
  stopping : Bool
  restarting : Bool
  deriving DecidableEq

/-- Socket sends performed by an operator command (notification text elided
    where no claim depends on it; timestamps omitted). -/
inductive ServerOutput
  | toIssuer (msg : List Char)
  | toTarget (sid : Nat) (msg : List Char)
  | broadcastAll (msg : List Char)
  deriving DecidableEq

/-- The linear search for a target user's socket used by kick/op/deop. -/
def findSocketByUsername (clients : List (Nat × List Char)) (u : List Char) : Option Nat :=
  match clients.find? (fun p => decide (p.2 = u)) with
  | some p => some p.1
  | none => none

/-- `handle_server_command` (source lines 497-640): operator-only commands.
    `/kick` removes the target's session; `/op` requires a registered,
    non-self target not already an operator and appends it; `/deop` requires a
    current operator other than the issuer and removes it (no registration
    check); `/listops` reads; `/stop` and `/restart` schedule shutdown or
    restart. -/
def handle_server_command (st : ServerState) (issuer message : List Char) :
    ServerState × List ServerOutput :=
  let parts := pySplitN ' ' 2 message
  let command := toLowerChars (parts.headD [])
  if command = lc "/kick" then
    match parts with
    | _ :: target :: rest =>
      if target = issuer then (st, [.toIssuer (lc "You cannot kick yourself.")])
      else
        match findSocketByUsername st.clients target with
        | some sid =>
          ({ st with clients := st.clients.filter (fun p => decide (p.1 ≠ sid)) },
            [.toTarget sid (lc "You have been kicked."),
             .broadcastAll (target ++ lc " was kicked by " ++ issuer ++
               lc ". Reason: " ++ rest.headD (lc "No reason specified."))])
        | none =>
          (st, [.toIssuer (lc "User '" ++ target ++ lc "' not found online.")])
    | _ => (st, [.toIssuer (lc "Usage: /kick <username> [reason]")])
  else if command = lc "/op" then
    if parts.length ≠ 2 then (st, [.toIssuer (lc "Usage: /op <username>")])
    else
      let target := (parts.getD 1 [])
      if target = issuer then (st, [.toIssuer (lc "You cannot op yourself.")])
      else if (st.creds.find? (fun p => decide (p.1 = target))).isNone then
        (st, [.toIssuer (lc "User '" ++ target ++ lc "' does not exist (must be registered).")])
      else if target ∈ st.ops then
        (st, [.toIssuer (lc "User '" ++ target ++ lc "' is already an operator.")])
      else
        ({ st with ops := st.ops ++ [target] },
          [.toIssuer (lc "User '" ++ target ++ lc "' is now an operator.")])
  else if command = lc "/deop" then
    if parts.length ≠ 2 then (st, [.toIssuer (lc "Usage: /deop <username>")])
    else
      let target := (parts.getD 1 [])
      if target = issuer then (st, [.toIssuer (lc "You cannot deop yourself.")])
      else if target ∉ st.ops then
        (st, [.toIssuer (lc "User '" ++ target ++ lc "' is not an operator.")])
      else
        ({ st with ops := st.ops.erase target },
          [.toIssuer (lc "User '" ++ target ++ lc "' is no longer an operator.")])
  else if command = lc "/listops" then
    (st, [.toIssuer (lc "Current Operators: ...")])
  else if command = lc "/stop" then
    ({ st with stopping := true }, [.broadcastAll (lc "Server is shutting down NOW!")])
  else if command = lc "/restart" then
    ({ st with restarting := true }, [.broadcastAll (lc "Server is restarting NOW!")])
  else (st, [])

/-- Effect of a dispatched action on the shared server state.  Only operator
    commands reach `handle_server_command`; the permission-denied branch
    (source lines 389-390) sends one error string to the issuer and touches
    nothing. -/
def applyDispatch (st : ServerState) (issuer : List Char) (d : Dispatch) :
    ServerState × List ServerOutput :=
  match d with
  | .serverCommand raw => handle_server_command st issuer raw
  | .permissionDenied =>
    (st, [.toIssuer (lc "You do not have permission to execute this command.")])
  | .errorReply m => (st, [.toIssuer m])
  | .usage m => (st, [.toIssuer m])
  | .chat text => (st, [.broadcastAll text])
  | _ => (st, [])

/-- `broadcast(message, sender_socket)` (source lines 643-660): the recipients
    are a point-in-time copy of the registered handles, skipping exactly the
    sender (`none` excludes nobody). -/
def broadcastRecipients (clients : List (Nat × List Char)) (sender : Option Nat) : List Nat :=
  (clients.filter (fun p => decide (some p.1 ≠ sender))).map Prod.fst

/-- Result of one registration attempt in `handle_login`. -/
structure RegResult where
  creds : List (List Char × List Char)
  ok : Bool
  deriving DecidableEq

/-- The registration step of `handle_login` (source lines 803-829), reached
    when the username is unknown and registration is enabled: the submitted
    line is split on every `':'`; it is accepted iff the split yields exactly
    two parts with the first non-empty and both equal, in which case the hash
    of the first part is stored under the username (`ok = true` makes the
    login proceed as successful; otherwise the connection is closed). -/
def registration_step (hash : List Char → List Char)
    (creds : List (List Char × List Char)) (username input : List Char) : RegResult :=
  match pySplit ':' input with
  | [a, b] =>
    if a ≠ [] ∧ a = b then ⟨(username, hash a) :: creds, true⟩ else ⟨creds, false⟩
  | _ => ⟨creds, false⟩

/-- Phases of one login attempt: `start` is before the duplicate check (source
    lines 757-764), `authed` is after passing it while the password exchange
    runs outside the lock, `active` is after insertion into `clients` (source
    line 834), `loginRejected` is a refused attempt. -/
inductive LoginPhase
  | start
  | authed
  | active
  | loginRejected
  deriving DecidableEq

/-- Login-concurrency state: the session registry plus the in-flight login
    attempts (socket id, requested username, phase). -/
structure AuthState where
  registry : List (Nat × String)
  tasks : List (Nat × String × LoginPhase)
  deriving DecidableEq

/-- Interleaved steps of concurrent `handle_login` calls as the source
    performs them: the duplicate check runs under the lock (source lines
    757-764), then the lock is released for the password exchange, then a
    second lock region inserts into `clients` (source lines 832-835) with no
    re-check. -/
inductive AuthStep : AuthState → AuthState → Prop
  | checkPass (s : AuthState) (i sid : Nat) (u : String)
      (htask : s.tasks.get? i = some (sid, u, .start))
      (hfree : u ∉ s.registry.map Prod.snd) :
      AuthStep s ⟨s.registry, s.tasks.set i (sid, u, .authed)⟩
  | checkFail (s : AuthState) (i sid : Nat) (u : String)
      (htask : s.tasks.get? i = some (sid, u, .start))
      (hdup : u ∈ s.registry.map Prod.snd) :
      AuthStep s ⟨s.registry, s.tasks.set i (sid, u, .loginRejected)⟩
  | insert (s : AuthState) (i sid : Nat) (u : String)
      (htask : s.tasks.get? i = some (sid, u, .authed)) :
      AuthStep s ⟨(sid, u) :: s.registry, s.tasks.set i (sid, u, .active)⟩

/-- The sequentialized discipline the claim describes: the duplicate check and
    the registry insertion happen as one atomic step, so no other login can
    run between them. -/
inductive AtomicAuthStep : AuthState → AuthState → Prop
  | loginOk (s : AuthState) (i sid : Nat) (u : String)
      (htask : s.tasks.get? i = some (sid, u, .start))
      (hfree : u ∉ s.registry.map Prod.snd) :
      AtomicAuthStep s ⟨(sid, u) :: s.registry, s.tasks.set i (sid, u, .active)⟩
  | loginDup (s : AuthState) (i sid : Nat) (u : String)
      (htask : s.tasks.get? i = some (sid, u, .start))
      (hdup : u ∈ s.registry.map Prod.snd) :
      AtomicAuthStep s ⟨s.registry, s.tasks.set i (sid, u, .loginRejected)⟩

/-- Initial state for the duplicate-login race: empty registry, two fresh
    connections both requesting the username `alice`. -/
def authRaceInit : AuthState :=
  ⟨[], [(1, "alice", .start), (2, "alice", .start)]⟩

/-! Helper lemmas about the string and path model. -/

theorem chElem_iff (c : Char) (l : List Char) : chElem c l = true ↔ c ∈ l := by
  induction l with
  | nil => simp [chElem]
  | cons d ds ih =>
    simp only [chElem]
    by_cases h : d = c
    · subst h; simp
    · rw [if_neg h, ih, List.mem_cons]
      have : ¬ c = d := fun hc => h hc.symm
      simp [this]

theorem not_mem_of_chElem_false {c : Char} {l : List Char} (h : chElem c l = false) :
    c ∉ l := by
  intro hm
  rw [← chElem_iff] at hm
  rw [h] at hm
  cases hm

theorem startsWithChars_append (a b : List Char) : startsWithChars a (a ++ b) = true := by
  induction a with
  | nil => rfl
  | cons c cs ih => simp [startsWithChars, ih]

theorem pySplit_ne_nil (sep : Char) (l : List Char) : pySplit sep l ≠ [] := by
  cases l with
  | nil => simp [pySplit]
  | cons c cs =>
    simp only [pySplit]
    by_cases h : c = sep
    · simp [h]
    · rw [if_neg h]
      cases hs : pySplit sep cs <;> simp

theorem sep_not_mem_of_mem_pySplit {sep : Char} {l p : List Char}
    (h : p ∈ pySplit sep l) : sep ∉ p := by
  induction l generalizing p with
  | nil =>
    simp [pySplit] at h
    subst h; simp
  | cons c cs ih =>
    simp only [pySplit] at h
    by_cases hc : c = sep
    · rw [if_pos hc, List.mem_cons] at h
      rcases h with h | h
      · subst h; simp
      · exact ih h
    · rw [if_neg hc] at h
      obtain ⟨q, qs, hq⟩ : ∃ q qs, pySplit sep cs = q :: qs := by
        cases hqq : pySplit sep cs with
        | nil => exact absurd hqq (pySplit_ne_nil sep cs)
        | cons q qs => exact ⟨q, qs, rfl⟩
      rw [hq] at h
      rcases List.mem_cons.mp h with h | h
      · subst h
        intro hmem
        rcases List.mem_cons.mp hmem with h1 | h1
        · exact hc h1.symm
        · exact ih (hq ▸ List.mem_cons_self q qs) h1
      · exact ih (hq ▸ List.mem_cons.mpr (Or.inr h))

theorem pySplit_append (sep : Char) (xs ys : List Char) :
    pySplit sep (xs ++ sep :: ys) = pySplit sep xs ++ pySplit sep ys := by
  induction xs with
  | nil => simp [pySplit]
  | cons c cs ih =>
    by_cases h : c = sep
    · simp only [List.cons_append, pySplit, if_pos h, List.append_eq, ih]
    · simp only [List.cons_append, pySplit, if_neg h, List.append_eq, ih]
      obtain ⟨q, qs, hq⟩ : ∃ q qs, pySplit sep cs = q :: qs := by
        cases hqq : pySplit sep cs with
        | nil => exact absurd hqq (pySplit_ne_nil sep cs)
        | cons q qs => exact ⟨q, qs, rfl⟩
      rw [hq]
      simp

theorem pySplit_no_sep {sep : Char} {l : List Char} (h : sep ∉ l) :
    pySplit sep l = [l] := by
  induction l with
  | nil => rfl
  | cons c cs ih =>
    have hc : ¬ c = sep := fun hcc => h (hcc ▸ List.mem_cons_self c cs)
    have hcs : sep ∉ cs := fun hm => h (List.mem_cons.mpr (Or.inr hm))
    simp only [pySplit, if_neg hc, ih hcs]

theorem pySplitN_ne_nil (sep : Char) (n : Nat) (l : List Char) : pySplitN sep n l ≠ [] := by
  cases n with
  | zero => simp [pySplitN]
  | succ m =>
    cases l with
    | nil => simp [pySplitN]
    | cons c cs =>
      simp only [pySplitN]
      by_cases h : c = sep
      · simp [h]
      · rw [if_neg h]
        cases hs : pySplitN sep (m + 1) cs <;> simp

theorem pySplitN_no_sep {sep : Char} {l : List Char} (h : sep ∉ l) (n : Nat) :
    pySplitN sep n l = [l] := by
  induction l generalizing n with
  | nil => cases n <;> rfl
  | cons c cs ih =>
    cases n with
    | zero => rfl
    | succ m =>
      have hc : ¬ c = sep := fun hcc => h (hcc ▸ List.mem_cons_self c cs)
      have hcs : sep ∉ cs := fun hm => h (List.mem_cons.mpr (Or.inr hm))
      simp only [pySplitN, if_neg hc, ih hcs]

theorem pySplitN_append {sep : Char} {xs : List Char} (h : sep ∉ xs) (n : Nat)
    (ys : List Char) : pySplitN sep (n + 1) (xs ++ sep :: ys) = xs :: pySplitN sep n ys := by
  induction xs with
  | nil => simp [pySplitN]
  | cons c cs ih =>
    have hc : ¬ c = sep := fun hcc => h (hcc ▸ List.mem_cons_self c cs)
    have hcs : sep ∉ cs := fun hm => h (List.mem_cons.mpr (Or.inr hm))
    simp only [List.cons_append, pySplitN, if_neg hc, List.append_eq, ih hcs]

theorem pySplitN_cases (sep : Char) (n : Nat) (l : List Char) :
    (sep ∉ l ∧ pySplitN sep (n + 1) l = [l]) ∨
      ∃ a b, l = a ++ sep :: b ∧ sep ∉ a ∧
        pySplitN sep (n + 1) l = a :: pySplitN sep n b := by
  induction l with
  | nil => exact Or.inl ⟨by simp, rfl⟩
  | cons c cs ih =>
    by_cases hc : c = sep
    · subst hc
      refine Or.inr ⟨[], cs, by simp, by simp, ?_⟩
      simp [pySplitN]
    · rcases ih with ⟨hns, heq⟩ | ⟨a, b, hsplit, hna, heq⟩
      · refine Or.inl ⟨?_, ?_⟩
        · intro hm
          rcases List.mem_cons.mp hm with h1 | h1
          · exact hc h1.symm
          · exact hns h1
        · simp only [pySplitN, if_neg hc, heq]
      · refine Or.inr ⟨c :: a, b, by simp [hsplit], ?_, ?_⟩
        · intro hm
          rcases List.mem_cons.mp hm with h1 | h1
          · exact hc h1.symm
          · exact hna h1
        · simp only [pySplitN, if_neg hc, heq]

theorem normStep_nil (acc : List (List Char)) : normStep acc [] = acc := by
  simp [normStep]

theorem cleanComps_cons_skip {c : List Char} (h1 : c = [] ∨ c = lc ".")
    (cs : List (List Char)) : cleanComps (c :: cs) = cleanComps cs := by
  rcases h1 with h1 | h1 <;> subst h1 <;> simp [cleanComps, List.filter_cons]

theorem cleanComps_cons_keep {c : List Char} (h1 : ¬(c = [] ∨ c = lc "."))
    (cs : List (List Char)) : cleanComps (c :: cs) = c :: cleanComps cs := by
  simp only [cleanComps, List.filter_cons]
  rw [if_pos (by simpa using h1)]

theorem foldl_normStep_clean {l : List (List Char)} (h : ∀ c ∈ l, c ≠ lc "..") :
    ∀ acc, l.foldl normStep acc = acc ++ cleanComps l := by
  induction l with
  | nil => intro acc; simp [cleanComps]
  | cons c cs ih =>
    intro acc
    have hc : c ≠ lc ".." := h c (List.mem_cons_self c cs)
    have hcs : ∀ d ∈ cs, d ≠ lc ".." := fun d hd => h d (List.mem_cons.mpr (Or.inr hd))
    rw [List.foldl_cons, ih hcs]
    by_cases h1 : c = [] ∨ c = lc "."
    · rw [show normStep acc c = acc from by simp [normStep, h1],
        cleanComps_cons_skip h1]
    · rw [show normStep acc c = acc ++ [c] from by simp [normStep, h1, hc],
        cleanComps_cons_keep h1]
      simp

theorem eq_dropLast_append {l : List Char} {c : Char} (h : l.getLast? = some c) :
    l = l.dropLast ++ [c] := by
  cases l using List.reverseRecOn with
  | nil => simp at h
  | append_singleton xs x =>
    simp only [List.getLast?_append, List.getLast?_singleton] at h
    have hx : some x = some c := h
    have hxc : x = c := Option.some_inj.mp hx
    simp [hxc]

theorem pyJoin_ne_nil {a b : List Char} (ha : a ≠ []) (hb : isAbs b = false) :
    pyJoin a b ≠ [] := by
  simp only [pyJoin, hb, Bool.false_eq_true, if_false, if_neg ha]
  by_cases hl : a.getLast? = some '/'
  · simp [hl, ha]
  · simp [hl, ha]

theorem isAbs_pyJoin {a b : List Char} (ha : a ≠ []) (hb : isAbs b = false) :
    isAbs (pyJoin a b) = isAbs a := by
  obtain ⟨c, cs, rfl⟩ : ∃ c cs, a = c :: cs := by
    cases a with
    | nil => exact absurd rfl ha
    | cons c cs => exact ⟨c, cs, rfl⟩
  simp only [pyJoin, hb, Bool.false_eq_true, if_false, if_neg ha]
  by_cases hl : (c :: cs).getLast? = some '/'
  · simp [hl, isAbs]
  · simp [hl, isAbs]

theorem foldl_normStep_pyJoin {a b : List Char} (ha : a ≠ []) (hb : isAbs b = false)
    (acc : List (List Char)) :
    (pySplit '/' (pyJoin a b)).foldl normStep acc =
      (pySplit '/' b).foldl normStep ((pySplit '/' a).foldl normStep acc) := by
  by_cases hl : a.getLast? = some '/'
  · have hae : a = a.dropLast ++ ['/'] := eq_dropLast_append hl
    have hjoin : pyJoin a b = a.dropLast ++ '/' :: b := by
      simp only [pyJoin, hb, Bool.false_eq_true, if_false, if_neg ha, if_pos hl]
      conv_lhs => rw [hae]
      simp
    have hsa : pySplit '/' a = pySplit '/' a.dropLast ++ [[]] := by
      conv_lhs => rw [hae]
      have := pySplit_append '/' a.dropLast []
      simpa [pySplit] using this
    rw [hjoin, pySplit_append, List.foldl_append, hsa, List.foldl_append]
    simp [normStep_nil]
  · have hjoin : pyJoin a b = a ++ '/' :: b := by
      simp only [pyJoin, hb, Bool.false_eq_true, if_false, if_neg ha, if_neg hl]
    rw [hjoin, pySplit_append, List.foldl_append]

theorem renderAbs_append {xs : List (List Char)} (hxs : xs ≠ []) (ys : List (List Char)) :
    renderAbs (xs ++ ys) = renderAbs xs ++ (ys.map (fun c => '/' :: c)).flatten := by
  simp [renderAbs, hxs, List.append_eq_nil]

theorem startsWith_renderAbs {xs : List (List Char)} (hxs : xs ≠ []) (ys : List (List Char)) :
    startsWithChars (renderAbs xs) (renderAbs (xs ++ ys)) = true := by
  rw [renderAbs_append hxs ys]
  exact startsWithChars_append (renderAbs xs) ((ys.map (fun c => '/' :: c)).flatten)

theorem normStep_extends (B : List (List Char)) {comp : List Char} (h : comp ≠ lc "..") :
    ∃ tail, normStep B comp = B ++ tail := by
  by_cases h1 : comp = [] ∨ comp = lc "."
  · exact ⟨[], by simp [normStep, h1]⟩
  · exact ⟨[comp], by simp [normStep, h1, h]⟩

theorem isAbs_ne_nil {p : List Char} (h : isAbs p = true) : p ≠ [] := by
  intro he
  rw [he] at h
  cases h

theorem isAbs_false_of_no_slash {p : List Char} (h : '/' ∉ p) : isAbs p = false := by
  cases p with
  | nil => rfl
  | cons c cs =>
    simp only [isAbs, decide_eq_false_iff_not]
    intro hc
    exact h (hc ▸ List.mem_cons_self c cs)

theorem normStep_file_directory (A : List (List Char)) :
    normStep A FILE_DIRECTORY = A ++ [FILE_DIRECTORY] := by
  rw [normStep, if_neg (by decide), if_neg (by decide)]

theorem abspath_file_directory (cwd : List Char) (hcwd : isAbs cwd = true) :
    abspath cwd FILE_DIRECTORY =
      renderAbs ((pySplit '/' cwd).foldl normStep [] ++ [FILE_DIRECTORY]) := by
  rw [abspath, normComps,
    foldl_normStep_pyJoin (isAbs_ne_nil hcwd) (by decide) [],
    show pySplit '/' FILE_DIRECTORY = [FILE_DIRECTORY] from by decide]
  simp [normStep_file_directory]

theorem abspath_join_two_under_root {cwd t f : List Char} (hcwd : isAbs cwd = true)
    (ht_slash : '/' ∉ t) (ht_dd : t ≠ lc "..")
    (hf_slash : '/' ∉ f) (hf_dd : f ≠ lc "..") :
    startsWithChars (abspath cwd FILE_DIRECTORY)
      (abspath cwd (pyJoin (pyJoin FILE_DIRECTORY t) f)) = true := by
  have hbt : isAbs t = false := isAbs_false_of_no_slash ht_slash
  have hbf : isAbs f = false := isAbs_false_of_no_slash hf_slash
  have hdir_ne : FILE_DIRECTORY ≠ [] := by decide
  have huser_ne : pyJoin FILE_DIRECTORY t ≠ [] := pyJoin_ne_nil hdir_ne hbt
  have hrel : isAbs (pyJoin (pyJoin FILE_DIRECTORY t) f) = false := by
    rw [isAbs_pyJoin huser_ne hbf, isAbs_pyJoin hdir_ne hbt]
    decide
  set A := (pySplit '/' cwd).foldl normStep [] with hA
  obtain ⟨tail₁, htail₁⟩ := normStep_extends (A ++ [FILE_DIRECTORY]) ht_dd
  obtain ⟨tail₂, htail₂⟩ := normStep_extends (A ++ [FILE_DIRECTORY] ++ tail₁) hf_dd
  have hfull : abspath cwd (pyJoin (pyJoin FILE_DIRECTORY t) f) =
      renderAbs ((A ++ [FILE_DIRECTORY]) ++ (tail₁ ++ tail₂)) := by
    rw [abspath, normComps,
      foldl_normStep_pyJoin (isAbs_ne_nil hcwd) hrel [],
      foldl_normStep_pyJoin huser_ne hbf,
      foldl_normStep_pyJoin hdir_ne hbt,
      show pySplit '/' FILE_DIRECTORY = [FILE_DIRECTORY] from by decide,
      pySplit_no_sep ht_slash, pySplit_no_sep hf_slash]
    simp only [List.foldl_cons, List.foldl_nil, ← hA, normStep_file_directory,
      htail₁, htail₂]
    simp [List.append_assoc]
  rw [hfull, abspath_file_directory cwd hcwd]
  exact startsWith_renderAbs (by simp) (tail₁ ++ tail₂)

theorem abspath_join_one_under_root {cwd t : List Char} (hcwd : isAbs cwd = true)
    (ht_slash : '/' ∉ t) (ht_dd : t ≠ lc "..") :
    startsWithChars (abspath cwd FILE_DIRECTORY)
      (abspath cwd (pyJoin FILE_DIRECTORY t)) = true := by
  have hbt : isAbs t = false := isAbs_false_of_no_slash ht_slash
  have hdir_ne : FILE_DIRECTORY ≠ [] := by decide
  have hrel : isAbs (pyJoin FILE_DIRECTORY t) = false := by
    rw [isAbs_pyJoin hdir_ne hbt]
    decide
  set A := (pySplit '/' cwd).foldl normStep [] with hA
  obtain ⟨tail₁, htail₁⟩ := normStep_extends (A ++ [FILE_DIRECTORY]) ht_dd
  have hfull : abspath cwd (pyJoin FILE_DIRECTORY t) =
      renderAbs ((A ++ [FILE_DIRECTORY]) ++ tail₁) := by
    rw [abspath, normComps,
      foldl_normStep_pyJoin (isAbs_ne_nil hcwd) hrel [],
      foldl_normStep_pyJoin hdir_ne hbt,
      show pySplit '/' FILE_DIRECTORY = [FILE_DIRECTORY] from by decide,
      pySplit_no_sep ht_slash]
    simp only [List.foldl_cons, List.foldl_nil, ← hA, normStep_file_directory, htail₁]
  rw [hfull, abspath_file_directory cwd hcwd]
  exact startsWith_renderAbs (by simp) tail₁

theorem validFilename_no_slash {f : List Char} (h : validFilename f = true) : '/' ∉ f := by
  simp only [validFilename, Bool.and_eq_true] at h
  have h3 := List.all_eq_true.mp h.2 '/' (by decide)
  exact not_mem_of_chElem_false (by simpa using h3)

theorem validFilename_ne_dotdot {f : List Char} (h : validFilename f = true) :
    f ≠ lc ".." := by
  intro he
  rw [he] at h
  exact absurd h (by decide)

theorem validUsername_clean {u : List Char} (h : validUsername u = true) :
    u ≠ [] ∧ '/' ∉ u ∧ u ≠ lc ".." := by
  simp only [validUsername, Bool.and_eq_true] at h
  obtain ⟨⟨⟨h1, _⟩, _⟩, h4⟩ := h
  refine ⟨?_, ?_, ?_⟩
  · intro he
    rw [he] at h1
    exact absurd h1 (by decide)
  · intro hm
    have := List.all_eq_true.mp h4 '/' hm
    exact absurd this (by decide)
  · intro he
    rw [he] at h4
    exact absurd h4 (by decide)

theorem readChunksAux_flatten :
    ∀ (fuel : Nat) (l : List Nat), l.length ≤ fuel → (readChunksAux fuel l).flatten = l := by
  intro fuel
  induction fuel with
  | zero =>
    intro l hl
    have : l = [] := List.eq_nil_of_length_eq_zero (Nat.le_zero.mp hl)
    subst this
    rfl
  | succ n ih =>
    intro l hl
    cases l with
    | nil => rfl
    | cons c cs =>
      simp only [readChunksAux, List.flatten_cons]
      rw [ih ((c :: cs).drop 4096) ?_]
      · exact List.take_append_drop 4096 (c :: cs)
      · rw [List.length_drop]
        simp only [List.length_cons] at hl ⊢
        omega

theorem readChunks_flatten (l : List Nat) : (readChunks l).flatten = l :=
  readChunksAux_flatten l.length l (Nat.le_refl _)

/-! Claim theorems. -/

/-- C1, counterexample: the claim states that every file operation accesses
    only paths that are descendants of the target user's directory *under the
    uploads root*, for every client-supplied target username.  The target
    username is never validated, so `/download .. secret` resolves to
    `/srv/secret` (with cwd `/srv`), passes the `startswith` containment
    check, and the server sends the file `/srv/secret`, which is not under the
    uploads root `/srv/user_uploaded_files`. -/
theorem C1_counterexample :
    handle_download [(lc "/srv/secret", [42])] (lc "/srv") (lc "..") (lc "secret") =
      .sent (lc "FILE_TRANSFER:secret:1") [42] ∧
    startsWithChars (abspath (lc "/srv") FILE_DIRECTORY) (lc "/srv/secret") = false :=
  ⟨by decide, by decide⟩

/-- C1 (amended): upload, download and delete validate the client-supplied
    filename identically, rejecting any name containing `..` or a reserved
    character, and any resulting file access stays under the resolved
    directory of the *requested target*.  Containment under the uploads root
    itself holds for download, delete and list whenever the target username
    contains no `/` and is not `..` (target usernames are not validated by the
    code, so this restriction is necessary: see the counterexample), and holds
    unconditionally for upload's destination because the session username was
    validated at login.  The filesystem is otherwise untouched. -/
theorem C1_amended (cwd target filename username filepath : List Char) (fs : FS)
    (hcwd : isAbs cwd = true) :
    (validFilename filename = false →
      handle_download_path cwd target filename =
        .rejected (lc "Invalid filename requested.") ∧
      handle_delete_path cwd target filename =
        .rejected (lc "Invalid filename provided.") ∧
      (validFilename (basename filepath) = false →
        (handle_upload fs cwd username filepath).1 = fs ∧
        (handle_upload fs cwd username filepath).2 ≠ .success)) ∧
    ('/' ∉ target → target ≠ lc ".." →
      (∀ p, handle_download_path cwd target filename = .access p →
        startsWithChars (abspath cwd FILE_DIRECTORY) p = true) ∧
      (∀ p, handle_delete_path cwd target filename = .access p →
        startsWithChars (abspath cwd FILE_DIRECTORY) p = true) ∧
      (∀ p, handle_list_path cwd target = .access p →
        startsWithChars (abspath cwd FILE_DIRECTORY) p = true)) ∧
    (validUsername username = true →
      ∀ p c, fsLookup (handle_upload fs cwd username filepath).1 p = some c →
        fsLookup fs p = some c ∨
          startsWithChars (abspath cwd FILE_DIRECTORY) p = true) := by
  refine ⟨?_, ?_, ?_⟩
  · intro hv
    refine ⟨by simp [handle_download_path, hv], by simp [handle_delete_path, hv], ?_⟩
    intro hbase
    cases hsrc : fsLookup fs (abspath cwd filepath) with
    | none => simp [handle_upload, hsrc]
    | some contents => simp [handle_upload, hsrc, hbase]
  · intro ht_slash ht_dd
    refine ⟨?_, ?_, ?_⟩
    · intro p hacc
      cases hvf : validFilename filename with
      | false => simp [handle_download_path, hvf] at hacc
      | true =>
        simp only [handle_download_path, hvf, Bool.not_true, Bool.false_eq_true,
          if_false] at hacc
        split at hacc
        · have hp := (PathAccess.access.injEq _ _).mp hacc
          rw [← hp]
          exact abspath_join_two_under_root hcwd ht_slash ht_dd
            (validFilename_no_slash hvf) (validFilename_ne_dotdot hvf)
        · cases hacc
    · intro p hacc
      cases hvf : validFilename filename with
      | false => simp [handle_delete_path, hvf] at hacc
      | true =>
        simp only [handle_delete_path, hvf, Bool.not_true, Bool.false_eq_true,
          if_false] at hacc
        split at hacc
        · have hp := (PathAccess.access.injEq _ _).mp hacc
          rw [← hp]
          exact abspath_join_two_under_root hcwd ht_slash ht_dd
            (validFilename_no_slash hvf) (validFilename_ne_dotdot hvf)
        · cases hacc
    · intro p hacc
      have hp : p = abspath cwd (pyJoin FILE_DIRECTORY target) :=
        ((PathAccess.access.injEq _ _).mp hacc).symm
      rw [hp]
      exact abspath_join_one_under_root hcwd ht_slash ht_dd
  · intro hu p c hlook
    obtain ⟨hu_ne, hu_slash, hu_dd⟩ := validUsername_clean hu
    cases hsrc : fsLookup fs (abspath cwd filepath) with
    | none =>
      simp only [handle_upload, hsrc] at hlook
      exact Or.inl hlook
    | some contents =>
      simp only [handle_upload, hsrc] at hlook
      cases hbase : validFilename (basename filepath) with
      | false =>
        simp only [hbase, Bool.not_false, if_true] at hlook
        exact Or.inl hlook
      | true =>
        simp only [hbase, Bool.not_true, Bool.false_eq_true, if_false] at hlook
        by_cases hdest :
            (fsLookup fs (abspath cwd (pyJoin (pyJoin FILE_DIRECTORY username)
              (basename filepath)))).isSome
        · rw [if_pos hdest] at hlook
          exact Or.inl hlook
        · rw [if_neg hdest] at hlook
          simp only [fsLookup] at hlook
          by_cases hp : abspath cwd (pyJoin (pyJoin FILE_DIRECTORY username)
              (basename filepath)) = p
          · refine Or.inr ?_
            rw [← hp]
            exact abspath_join_two_under_root hcwd hu_slash hu_dd
              (validFilename_no_slash hbase) (validFilename_ne_dotdot hbase)
          · rw [if_neg hp] at hlook
            exact Or.inl hlook

/-- C1, witness: a clean request (`/download alice notes.txt`, cwd `/srv`)
    resolves inside the uploads root. -/
theorem C1_witness :
    isAbs (lc "/srv") = true ∧
    startsWithChars (abspath (lc "/srv") FILE_DIRECTORY)
      (lc "/srv/user_uploaded_files/alice/notes.txt") = true :=
  ⟨by decide,
    ((C1_amended (lc "/srv") (lc "alice") (lc "notes.txt") (lc "alice")
        (lc "/tmp/notes.txt") [] (by decide)).2.1 (by decide) (by decide)).1
      (lc "/srv/user_uploaded_files/alice/notes.txt") (by decide)⟩

/-- C2, counterexample: the claim states that each username appears at most
    once in the registry at every reachable state, even when two logins for
    the same username run concurrently.  In the code the duplicate check and
    the registry insertion are two separate lock regions with the blocking
    password exchange between them, so the interleaving check(1), check(2),
    insert(1), insert(2) is reachable and leaves `alice` bound to two
    sessions. -/
theorem C2_counterexample :
    Relation.ReflTransGen AuthStep authRaceInit
      ⟨[(2, "alice"), (1, "alice")],
        [(1, "alice", .active), (2, "alice", .active)]⟩ ∧
    ¬ ((([(2, "alice"), (1, "alice")] : List (Nat × String)).map Prod.snd).Nodup) := by
  constructor
  · have t1 : AuthStep authRaceInit
        ⟨[], [(1, "alice", LoginPhase.authed), (2, "alice", LoginPhase.start)]⟩ :=
      AuthStep.checkPass authRaceInit 0 1 "alice" rfl (by simp [authRaceInit])
    have t2 : AuthStep
        ⟨[], [(1, "alice", LoginPhase.authed), (2, "alice", LoginPhase.start)]⟩
        ⟨[], [(1, "alice", LoginPhase.authed), (2, "alice", LoginPhase.authed)]⟩ :=
      AuthStep.checkPass _ 1 2 "alice" rfl (by simp)
    have t3 : AuthStep
        ⟨[], [(1, "alice", LoginPhase.authed), (2, "alice", LoginPhase.authed)]⟩
        ⟨[(1, "alice")], [(1, "alice", LoginPhase.active), (2, "alice", LoginPhase.authed)]⟩ :=
      AuthStep.insert _ 0 1 "alice" rfl
    have t4 : AuthStep
        ⟨[(1, "alice")], [(1, "alice", LoginPhase.active), (2, "alice", LoginPhase.authed)]⟩
        ⟨[(2, "alice"), (1, "alice")],
          [(1, "alice", LoginPhase.active), (2, "alice", LoginPhase.active)]⟩ :=
      AuthStep.insert _ 1 2 "alice" rfl
    exact Relation.ReflTransGen.head t1 (Relation.ReflTransGen.head t2
      (Relation.ReflTransGen.head t3 (Relation.ReflTransGen.head t4
        Relation.ReflTransGen.refl)))
  · decide

/-- C2 (amended): the in-lock duplicate check does reject any username already
    present in the registry at the moment of the check, and if the check and
    the insertion were one atomic lock region (no other login step between
    them), username uniqueness in the registry would be an invariant of every
    reachable state.  In the code the check and the insertion are separated by
    the password exchange, so two concurrent logins for the same username can
    both pass the check and both be inserted (see the counterexample). -/
theorem C2_amended (s s' : AuthState)
    (h : Relation.ReflTransGen AtomicAuthStep s s')
    (hstart : (s.registry.map Prod.snd).Nodup) :
    (s'.registry.map Prod.snd).Nodup := by
  induction h with
  | refl => exact hstart
  | tail hab hbc ih =>
    cases hbc with
    | loginOk i sid u htask hfree =>
      simp only [List.map_cons]
      exact List.nodup_cons.mpr ⟨hfree, ih⟩
    | loginDup i sid u htask hdup => exact ih

/-- C2, witness: a single atomic login of `bob` into an empty registry keeps
    the registry duplicate-free. -/
theorem C2_witness :
    (([] : List (Nat × String)).map Prod.snd).Nodup ∧
    (([(1, "bob")] : List (Nat × String)).map Prod.snd).Nodup :=
  ⟨by decide,
    C2_amended ⟨[], [(1, "bob", .start)]⟩ ⟨[(1, "bob")], [(1, "bob", .active)]⟩
      (Relation.ReflTransGen.single (AtomicAuthStep.loginOk _ 0 1 "bob" rfl (by simp)))
      (by decide)⟩

/-- C3: a registration attempt (unknown username, registration enabled) is
    accepted iff the submitted line splits on `':'` into exactly two non-empty
    identical halves; on acceptance the hash of the half is stored under the
    username and the login proceeds (`ok = true`); on any other input the
    credential map is unchanged (and the connection is closed). -/
theorem C3_registration (hash : List Char → List Char)
    (creds : List (List Char × List Char)) (username input : List Char) :
    ((registration_step hash creds username input).ok = true ↔
      ∃ a, pySplit ':' input = [a, a] ∧ a ≠ []) ∧
    (∀ a, pySplit ':' input = [a, a] → a ≠ [] →
      registration_step hash creds username input =
        ⟨(username, hash a) :: creds, true⟩) ∧
    ((registration_step hash creds username input).ok = false →
      (registration_step hash creds username input).creds = creds) := by
  rcases hs : pySplit ':' input with _ | ⟨a, _ | ⟨b, _ | ⟨c2, rest⟩⟩⟩
  · exact absurd hs (pySplit_ne_nil ':' input)
  · have hstep : registration_step hash creds username input = ⟨creds, false⟩ := by
      simp [registration_step, hs]
    refine ⟨?_, ?_, ?_⟩
    · rw [hstep]
      constructor
      · intro hfalse
        simp at hfalse
      · rintro ⟨x, hx, -⟩
        obtain ⟨-, h2⟩ := (List.cons.injEq _ _ _ _).mp hx
        exact absurd h2.symm (List.cons_ne_nil _ _)
    · intro x hx
      obtain ⟨-, h2⟩ := (List.cons.injEq _ _ _ _).mp hx
      exact absurd h2.symm (List.cons_ne_nil _ _)
    · intro _
      rw [hstep]
  · by_cases hcond : a ≠ [] ∧ a = b
    · obtain ⟨hane, hab⟩ := hcond
      subst hab
      have hstep : registration_step hash creds username input =
          ⟨(username, hash a) :: creds, true⟩ := by
        simp [registration_step, hs, hane]
      refine ⟨?_, ?_, ?_⟩
      · rw [hstep]
        exact ⟨fun _ => ⟨a, rfl, hane⟩, fun _ => rfl⟩
      · intro x hx _
        obtain ⟨h1, -⟩ := (List.cons.injEq _ _ _ _).mp hx
        rw [hstep, h1]
      · intro hok
        rw [hstep] at hok
        simp at hok
    · have hstep : registration_step hash creds username input = ⟨creds, false⟩ := by
        simp only [registration_step, hs]
        rw [if_neg hcond]
      refine ⟨?_, ?_, ?_⟩
      · rw [hstep]
        constructor
        · intro hfalse
          simp at hfalse
        · rintro ⟨x, hx, hxne⟩
          obtain ⟨h1, h2⟩ := (List.cons.injEq _ _ _ _).mp hx
          obtain ⟨h3, -⟩ := (List.cons.injEq _ _ _ _).mp h2
          exact absurd ⟨fun he => hxne (h1.symm.trans he), h1.trans h3.symm⟩ hcond
      · intro x hx hxne
        obtain ⟨h1, h2⟩ := (List.cons.injEq _ _ _ _).mp hx
        obtain ⟨h3, -⟩ := (List.cons.injEq _ _ _ _).mp h2
        exact absurd ⟨fun he => hxne (h1.symm.trans he), h1.trans h3.symm⟩ hcond
      · intro _
        rw [hstep]
  · have hstep : registration_step hash creds username input = ⟨creds, false⟩ := by
      simp [registration_step, hs]
    refine ⟨?_, ?_, ?_⟩
    · rw [hstep]
      constructor
      · intro hfalse
        simp at hfalse
      · rintro ⟨x, hx, -⟩
        obtain ⟨-, h2⟩ := (List.cons.injEq _ _ _ _).mp hx
        obtain ⟨-, h3⟩ := (List.cons.injEq _ _ _ _).mp h2
        exact absurd h3 (List.cons_ne_nil _ _)
    · intro x hx
      obtain ⟨-, h2⟩ := (List.cons.injEq _ _ _ _).mp hx
      obtain ⟨-, h3⟩ := (List.cons.injEq _ _ _ _).mp h2
      exact absurd h3 (List.cons_ne_nil _ _)
    · intro _
      rw [hstep]

/-- C3, witness: submitting `pw:pw` for a fresh username stores the hashed
    password and succeeds. -/
theorem C3_witness :
    (pySplit ':' (lc "pw:pw") = [lc "pw", lc "pw"] ∧ lc "pw" ≠ []) ∧
    registration_step (fun l => l) [] (lc "alice") (lc "pw:pw") =
      ⟨[(lc "alice", lc "pw")], true⟩ :=
  ⟨⟨by decide, by decide⟩,
    (C3_registration (fun l => l) [] (lc "alice") (lc "pw:pw")).2.1 (lc "pw")
      (by decide) (by decide)⟩

/-- C9: the registration line is split on every `':'` and accepted only when
    the split has exactly two parts, so an accepted stored password can never
    contain a colon — e.g. submitting `a:b:a:b` to confirm the password `a:b`
    splits into four parts and is rejected with no credential record. -/
theorem C9_colon_password (hash : List Char → List Char)
    (creds : List (List Char × List Char)) (username input : List Char) :
    ((registration_step hash creds username input).ok = true →
      (pySplit ':' input).length = 2 ∧
      ∃ a, pySplit ':' input = [a, a] ∧ ':' ∉ a) ∧
    registration_step hash creds username (lc "a:b:a:b") = ⟨creds, false⟩ := by
  constructor
  · intro hok
    rcases hs : pySplit ':' input with _ | ⟨a, _ | ⟨b, _ | ⟨c2, rest⟩⟩⟩
    · exact absurd hs (pySplit_ne_nil ':' input)
    · simp [registration_step, hs] at hok
    · by_cases hcond : a ≠ [] ∧ a = b
      · have hmem : a ∈ pySplit ':' input := by
          rw [hs]
          exact List.mem_cons_self a [b]
        exact ⟨rfl, a, by rw [hcond.2], sep_not_mem_of_mem_pySplit hmem⟩
      · simp [registration_step, hs, if_neg hcond] at hok
    · simp [registration_step, hs] at hok
  · have hs : pySplit ':' (lc "a:b:a:b") = [lc "a", lc "b", lc "a", lc "b"] := by decide
    simp [registration_step, hs]

/-- C9, witness: the colon-free submission `x:x` is accepted and its stored
    password contains no colon. -/
theorem C9_witness :
    (registration_step (fun l => l) [] (lc "u") (lc "x:x")).ok = true ∧
    ((pySplit ':' (lc "x:x")).length = 2 ∧
      ∃ a, pySplit ':' (lc "x:x") = [a, a] ∧ ':' ∉ a) :=
  ⟨by decide, (C9_colon_password (fun l => l) [] (lc "u") (lc "x:x")).1 (by decide)⟩

/-- C5: every successful download emits the single header
    `FILE_TRANSFER:<filename>:<N>` where `N` is exactly the length of the
    payload, and the payload is byte-for-byte the stored file contents, so a
    receiver that consumes exactly `N` bytes after the header has consumed the
    whole transfer. -/
theorem C5_download_framing (fs : FS) (cwd target filename header : List Char)
    (payload : List Nat)
    (h : handle_download fs cwd target filename = .sent header payload) :
    ∃ p contents, handle_download_path cwd target filename = .access p ∧
      fsLookup fs p = some contents ∧ payload = contents ∧
      header = lc "FILE_TRANSFER:" ++ filename ++ ':' :: lc (toString payload.length) := by
  cases hpath : handle_download_path cwd target filename with
  | rejected m => simp [handle_download, hpath] at h
  | access p =>
    cases hfs : fsLookup fs p with
    | none => simp [handle_download, hpath, hfs] at h
    | some contents =>
      simp only [handle_download, hpath, hfs] at h
      have hh := (DownloadResult.sent.injEq _ _ _ _).mp h
      refine ⟨p, contents, rfl, hfs, ?_, ?_⟩
      · rw [← hh.2, readChunks_flatten]
      · rw [← hh.1, ← hh.2, readChunks_flatten]

/-- C5, witness: downloading alice's 3-byte file produces the header
    `FILE_TRANSFER:notes.txt:3` followed by those 3 bytes. -/
theorem C5_witness :
    handle_download [(lc "/srv/user_uploaded_files/alice/notes.txt", [1, 2, 3])]
        (lc "/srv") (lc "alice") (lc "notes.txt") =
      .sent (lc "FILE_TRANSFER:notes.txt:3") [1, 2, 3] ∧
    ∃ p contents,
      handle_download_path (lc "/srv") (lc "alice") (lc "notes.txt") = .access p ∧
      fsLookup [(lc "/srv/user_uploaded_files/alice/notes.txt", [1, 2, 3])] p =
        some contents ∧
      ([1, 2, 3] : List Nat) = contents ∧
      lc "FILE_TRANSFER:notes.txt:3" =
        lc "FILE_TRANSFER:" ++ lc "notes.txt" ++ ':' ::
          lc (toString ([1, 2, 3] : List Nat).length) :=
  ⟨by decide,
    C5_download_framing [(lc "/srv/user_uploaded_files/alice/notes.txt", [1, 2, 3])]
      (lc "/srv") (lc "alice") (lc "notes.txt") (lc "FILE_TRANSFER:notes.txt:3")
      [1, 2, 3] (by decide)⟩

/-- C6: an upload never overwrites any existing file — every file present
    before the upload still maps to the same bytes afterwards — and an upload
    whose destination `<uploads_root>/<username>/<basename>` already exists
    leaves the filesystem unchanged and does not succeed (every non-success
    reply of `handle_upload` is an `[Error]` message to the uploader). -/
theorem C6_no_overwrite (fs : FS) (cwd username filepath : List Char) :
    (∀ p c, fsLookup fs p = some c →
      fsLookup (handle_upload fs cwd username filepath).1 p = some c) ∧
    ((fsLookup fs (abspath cwd (pyJoin (pyJoin FILE_DIRECTORY username)
        (basename filepath)))).isSome →
      (handle_upload fs cwd username filepath).1 = fs ∧
      (handle_upload fs cwd username filepath).2 ≠ .success) := by
  constructor
  · intro p c hp
    cases hsrc : fsLookup fs (abspath cwd filepath) with
    | none => simpa [handle_upload, hsrc] using hp
    | some contents =>
      simp only [handle_upload, hsrc]
      cases hbase : validFilename (basename filepath) with
      | false => simpa [hbase] using hp
      | true =>
        simp only [hbase, Bool.not_true, Bool.false_eq_true, if_false]
        by_cases hdest : (fsLookup fs (abspath cwd (pyJoin (pyJoin FILE_DIRECTORY
            username) (basename filepath)))).isSome
        · rw [if_pos hdest]
          exact hp
        · rw [if_neg hdest]
          simp only [fsLookup]
          by_cases hdp : abspath cwd (pyJoin (pyJoin FILE_DIRECTORY username)
              (basename filepath)) = p
          · exfalso
            rw [hdp] at hdest
            rw [hp] at hdest
            exact hdest rfl
          · rw [if_neg hdp]
            exact hp
  · intro hdest
    cases hsrc : fsLookup fs (abspath cwd filepath) with
    | none => exact ⟨by simp [handle_upload, hsrc], by simp [handle_upload, hsrc]⟩
    | some contents =>
      cases hbase : validFilename (basename filepath) with
      | false => exact ⟨by simp [handle_upload, hsrc, hbase],
          by simp [handle_upload, hsrc, hbase]⟩
      | true => exact ⟨by simp [handle_upload, hsrc, hbase, hdest],
          by simp [handle_upload, hsrc, hbase, hdest]⟩

/-- C6, witness: re-uploading `f.txt` when `alice` already has an `f.txt`
    fails and both existing files keep their bytes. -/
theorem C6_witness :
    (fsLookup [(lc "/srv/f.txt", [9]), (lc "/srv/user_uploaded_files/alice/f.txt", [7])]
      (abspath (lc "/srv") (pyJoin (pyJoin FILE_DIRECTORY (lc "alice"))
        (basename (lc "/srv/f.txt"))))).isSome = true ∧
    (handle_upload [(lc "/srv/f.txt", [9]),
        (lc "/srv/user_uploaded_files/alice/f.txt", [7])]
      (lc "/srv") (lc "alice") (lc "/srv/f.txt")).1 =
      [(lc "/srv/f.txt", [9]), (lc "/srv/user_uploaded_files/alice/f.txt", [7])] ∧
    (handle_upload [(lc "/srv/f.txt", [9]),
        (lc "/srv/user_uploaded_files/alice/f.txt", [7])]
      (lc "/srv") (lc "alice") (lc "/srv/f.txt")).2 ≠ .success ∧
    fsLookup (handle_upload [(lc "/srv/f.txt", [9]),
        (lc "/srv/user_uploaded_files/alice/f.txt", [7])]
      (lc "/srv") (lc "alice") (lc "/srv/f.txt")).1
      (lc "/srv/user_uploaded_files/alice/f.txt") = some [7] := by
  refine ⟨by decide, ?_, ?_, ?_⟩
  · exact ((C6_no_overwrite [(lc "/srv/f.txt", [9]),
      (lc "/srv/user_uploaded_files/alice/f.txt", [7])]
      (lc "/srv") (lc "alice") (lc "/srv/f.txt")).2 (by decide)).1
  · exact ((C6_no_overwrite [(lc "/srv/f.txt", [9]),
      (lc "/srv/user_uploaded_files/alice/f.txt", [7])]
      (lc "/srv") (lc "alice") (lc "/srv/f.txt")).2 (by decide)).2
  · exact (C6_no_overwrite [(lc "/srv/f.txt", [9]),
      (lc "/srv/user_uploaded_files/alice/f.txt", [7])]
      (lc "/srv") (lc "alice") (lc "/srv/f.txt")).1
      (lc "/srv/user_uploaded_files/alice/f.txt") [7] (by decide)

/-- C10: `handle_client` splits the `/delete` line on every single space, so
    own-file deletion (the two-part form) can only ever see a filename without
    spaces; a three-token line is parsed as the operator form (permission
    error for non-operators), and four or more tokens always fall through to
    the usage error.  Hence a user's own file whose name contains a space can
    never be addressed by `/delete`. -/
theorem C10_delete_space (is_op : Bool) (msg : List Char) :
    (∀ fn, delete_parse is_op (pySplit ' ' msg) = .own fn → ' ' ∉ fn) ∧
    ((pySplit ' ' msg).length = 3 → is_op = false →
      delete_parse is_op (pySplit ' ' msg) = .permissionDenied) ∧
    (∀ a b c2, pySplit ' ' msg = [a, b, c2] → is_op = true →
      delete_parse is_op (pySplit ' ' msg) = .other b c2) ∧
    (4 ≤ (pySplit ' ' msg).length → delete_parse is_op (pySplit ' ' msg) = .usage) := by
  rcases hs : pySplit ' ' msg with _ | ⟨a, _ | ⟨b, _ | ⟨c2, _ | ⟨d, rest⟩⟩⟩⟩
  · exact absurd hs (pySplit_ne_nil ' ' msg)
  · refine ⟨?_, by simp, by simp, by simp⟩
    intro fn h
    simp [delete_parse] at h
  · refine ⟨?_, by simp, by simp, by simp⟩
    intro fn h
    simp only [delete_parse] at h
    have hfn : b = fn := ((DeleteParse.own.injEq _ _).mp h)
    have hmem : b ∈ pySplit ' ' msg := by
      rw [hs]
      exact List.mem_cons.mpr (Or.inr (List.mem_cons_self b []))
    rw [← hfn]
    exact sep_not_mem_of_mem_pySplit hmem
  · refine ⟨?_, ?_, ?_, by simp⟩
    · intro fn h
      cases is_op <;> simp [delete_parse] at h
    · intro _ hop
      simp [delete_parse, hop]
    · intro x y z hxyz hopt
      obtain ⟨-, h2⟩ := (List.cons.injEq _ _ _ _).mp hxyz
      obtain ⟨hy, h3⟩ := (List.cons.injEq _ _ _ _).mp h2
      obtain ⟨hz, -⟩ := (List.cons.injEq _ _ _ _).mp h3
      simp [delete_parse, hopt, hy, hz]
  · refine ⟨?_, by simp, ?_, ?_⟩
    · intro fn h
      cases is_op <;> simp [delete_parse] at h
    · intro x y z hxyz
      obtain ⟨-, h2⟩ := (List.cons.injEq _ _ _ _).mp hxyz
      obtain ⟨-, h3⟩ := (List.cons.injEq _ _ _ _).mp h2
      obtain ⟨-, h4⟩ := (List.cons.injEq _ _ _ _).mp h3
      exact absurd h4 (List.cons_ne_nil _ _)
    · intro _
      cases is_op <;> simp [delete_parse]

/-- C10, witness: a non-operator's `/delete my file.txt` (filename with a
    space) is parsed as the operator form and rejected with a permission
    error. -/
theorem C10_witness :
    (pySplit ' ' (lc "/delete my file.txt")).length = 3 ∧
    delete_parse false (pySplit ' ' (lc "/delete my file.txt")) = .permissionDenied :=
  ⟨by decide,
    (C10_delete_space false (lc "/delete my file.txt")).2.1 (by decide) rfl⟩

/-- C7, counterexample: the claim says an empty (after trimming) line is
    rejected *with an error reply to the sender*; the code instead hits
    `if not msg_content: continue` and silently ignores it — no reply is
    sent. -/
theorem C7_counterexample :
    dispatch [] (lc "alice") (lc "12:00:00") (lc "  ") = .ignored ∧
    Dispatch.ignored ≠ Dispatch.errorReply (lc "Message cannot exceed 512 characters.") :=
  ⟨by decide, by decide⟩

/-- C7 (amended): a received non-command line is trimmed; an empty result is
    silently ignored (no error reply, nothing broadcast); a line longer than
    512 characters is rejected with an error reply to the sender only; any
    other line is timestamped, attributed to the sender, and handed to the
    broadcast engine, whose recipient set never includes the sender. -/
theorem C7_amended (ops : List (List Char)) (username now message : List Char)
    (hnc : (pyStrip message).head? ≠ some '/') :
    ((pyStrip message) = [] → dispatch ops username now message = .ignored) ∧
    (512 < (pyStrip message).length →
      dispatch ops username now message =
        .errorReply (lc "Message cannot exceed 512 characters.")) ∧
    ((pyStrip message) ≠ [] → (pyStrip message).length ≤ 512 →
      dispatch ops username now message =
        .chat (format_for_client now (pyStrip message) ('[' :: username ++ [']']))) ∧
    (∀ clients (sid : Nat), sid ∉ broadcastRecipients clients (some sid)) := by
  refine ⟨?_, ?_, ?_, ?_⟩
  · intro he
    simp [dispatch, he]
  · intro hlen
    have hne : pyStrip message ≠ [] := by
      intro he
      rw [he] at hlen
      simp at hlen
    simp only [dispatch]
    rw [if_neg hne, if_neg hnc, if_pos hlen]
  · intro hne hlen
    simp only [dispatch]
    rw [if_neg hne, if_neg hnc,
      if_neg (by omega : ¬ 512 < (pyStrip message).length)]
  · intro clients sid
    simp only [broadcastRecipients, List.mem_map]
    rintro ⟨p, hp, hfst⟩
    have h2 := (List.mem_filter.mp hp).2
    simp only [decide_eq_true_eq] at h2
    exact h2 (by rw [hfst])

/-- C7, witness: a short chat line is trimmed, attributed, timestamped and
    broadcast; the sender is never among the broadcast recipients. -/
theorem C7_witness :
    (pyStrip (lc " hello ")).head? ≠ some '/' ∧
    dispatch [] (lc "alice") (lc "12:00:00") (lc " hello ") =
      .chat (format_for_client (lc "12:00:00") (pyStrip (lc " hello "))
        ('[' :: lc "alice" ++ [']'])) :=
  ⟨by decide,
    (C7_amended [] (lc "alice") (lc "12:00:00") (lc " hello ") (by decide)).2.2.1
      (by decide) (by decide)⟩

/-- C4: every one of the six operator-gated commands issued by a session whose
    username is not in the operator list dispatches to the permission-denied
    branch, which sends exactly one error string to the issuer and leaves the
    whole shared server state (clients, ops, creds, stop/restart flags)
    unchanged. -/
theorem C4_op_gate (st : ServerState) (username now message : List Char)
    (hnotop : username ∉ st.ops)
    (hhead : (pyStrip message).head? = some '/')
    (hcmd : toLowerChars ((pySplitN ' ' 1 (pyStrip message)).headD []) ∈
      op_gated_commands) :
    dispatch st.ops username now message = .permissionDenied ∧
    applyDispatch st username (dispatch st.ops username now message) =
      (st, [.toIssuer (lc "You do not have permission to execute this command.")]) := by
  have hne : pyStrip message ≠ [] := by
    intro he
    rw [he] at hhead
    cases hhead
  have hdisp : dispatch st.ops username now message = .permissionDenied := by
    simp only [dispatch]
    rw [if_neg hne, if_pos hhead]
    simp only [op_gated_commands, List.mem_cons, List.not_mem_nil, or_false] at hcmd
    rcases hcmd with h | h | h | h | h | h <;>
      rw [h] <;>
      rw [if_neg (by decide), if_neg (by decide), if_neg (by decide),
        if_neg (by decide), if_pos (by decide), if_neg hnotop]
  exact ⟨hdisp, by rw [hdisp]; rfl⟩

/-- C4, witness: a non-operator's `/kick bob` is refused with the permission
    error and the state argument is returned unchanged. -/
theorem C4_witness :
    lc "alice" ∉ (⟨[(1, lc "alice")], [lc "root"], [], false, false⟩ : ServerState).ops ∧
    (pyStrip (lc "/kick bob")).head? = some '/' ∧
    toLowerChars ((pySplitN ' ' 1 (pyStrip (lc "/kick bob"))).headD []) ∈
      op_gated_commands ∧
    dispatch (⟨[(1, lc "alice")], [lc "root"], [], false, false⟩ : ServerState).ops
      (lc "alice") (lc "12:00:00") (lc "/kick bob") = .permissionDenied :=
  ⟨by decide, by decide, by decide,
    (C4_op_gate ⟨[(1, lc "alice")], [lc "root"], [], false, false⟩ (lc "alice")
      (lc "12:00:00") (lc "/kick bob") (by decide) (by decide) (by decide)).1⟩

theorem handle_op_cases (st : ServerState) (issuer target : List Char) :
    (pySplitN ' ' 1 target = [target] ∧
      handle_server_command st issuer (lc "/op " ++ target) =
        (if target = issuer then (st, [.toIssuer (lc "You cannot op yourself.")])
         else if (st.creds.find? (fun p => decide (p.1 = target))).isNone then
           (st, [.toIssuer (lc "User '" ++ target ++
             lc "' does not exist (must be registered).")])
         else if target ∈ st.ops then
           (st, [.toIssuer (lc "User '" ++ target ++ lc "' is already an operator.")])
         else ({ st with ops := st.ops ++ [target] },
           [.toIssuer (lc "User '" ++ target ++ lc "' is now an operator.")]))) ∨
    (handle_server_command st issuer (lc "/op " ++ target)).1 = st := by
  have hmsg : lc "/op " ++ target = lc "/op" ++ ' ' :: target := by
    rw [show lc "/op " = lc "/op" ++ [' '] from by decide]
    simp
  have hparts : pySplitN ' ' 2 (lc "/op " ++ target) =
      lc "/op" :: pySplitN ' ' 1 target := by
    rw [hmsg]
    exact pySplitN_append (by decide) 1 target
  rcases pySplitN_cases ' ' 0 target with ⟨hns, hone⟩ | ⟨a, b, htgt, hna, htwo⟩
  · left
    refine ⟨hone, ?_⟩
    simp only [handle_server_command, hparts, hone, List.headD_cons]
    rw [show toLowerChars (lc "/op") = lc "/op" from by decide]
    rw [if_neg (by decide : ¬ lc "/op" = lc "/kick")]
    rw [if_pos (rfl : lc "/op" = lc "/op")]
    rw [if_neg (by simp : ¬ (lc "/op" :: [target]).length ≠ 2)]
    rfl
  · right
    simp only [handle_server_command, hparts, htwo, List.headD_cons]
    rw [show toLowerChars (lc "/op") = lc "/op" from by decide]
    rw [if_neg (by decide : ¬ lc "/op" = lc "/kick")]
    rw [if_pos (rfl : lc "/op" = lc "/op")]
    rw [if_pos (by simp [pySplitN] : (lc "/op" :: a :: pySplitN ' ' 0 b).length ≠ 2)]

theorem handle_deop_cases (st : ServerState) (issuer target : List Char) :
    (pySplitN ' ' 1 target = [target] ∧
      handle_server_command st issuer (lc "/deop " ++ target) =
        (if target = issuer then (st, [.toIssuer (lc "You cannot deop yourself.")])
         else if target ∉ st.ops then
           (st, [.toIssuer (lc "User '" ++ target ++ lc "' is not an operator.")])
         else ({ st with ops := st.ops.erase target },
           [.toIssuer (lc "User '" ++ target ++ lc "' is no longer an operator.")]))) ∨
    (handle_server_command st issuer (lc "/deop " ++ target)).1 = st := by
  have hmsg : lc "/deop " ++ target = lc "/deop" ++ ' ' :: target := by
    rw [show lc "/deop " = lc "/deop" ++ [' '] from by decide]
    simp
  have hparts : pySplitN ' ' 2 (lc "/deop " ++ target) =
      lc "/deop" :: pySplitN ' ' 1 target := by
    rw [hmsg]
    exact pySplitN_append (by decide) 1 target
  rcases pySplitN_cases ' ' 0 target with ⟨hns, hone⟩ | ⟨a, b, htgt, hna, htwo⟩
  · left
    refine ⟨hone, ?_⟩
    simp only [handle_server_command, hparts, hone, List.headD_cons]
    rw [show toLowerChars (lc "/deop") = lc "/deop" from by decide]
    rw [if_neg (by decide : ¬ lc "/deop" = lc "/kick")]
    rw [if_neg (by decide : ¬ lc "/deop" = lc "/op")]
    rw [if_pos (rfl : lc "/deop" = lc "/deop")]
    rw [if_neg (by simp : ¬ (lc "/deop" :: [target]).length ≠ 2)]
    rfl
  · right
    simp only [handle_server_command, hparts, htwo, List.headD_cons]
    rw [show toLowerChars (lc "/deop") = lc "/deop" from by decide]
    rw [if_neg (by decide : ¬ lc "/deop" = lc "/kick")]
    rw [if_neg (by decide : ¬ lc "/deop" = lc "/op")]
    rw [if_pos (rfl : lc "/deop" = lc "/deop")]
    rw [if_pos (by simp [pySplitN] : (lc "/deop" :: a :: pySplitN ' ' 0 b).length ≠ 2)]

/-- C8, counterexample: the claim states that `/op` and `/deop` succeed only
    when the target is registered in the credential store.  `/deop` performs
    no credential-store check: with an empty credential store and
    `ops = [admin, ghost]`, `admin` successfully de-ops the unregistered
    `ghost` (the operator list is mutated). -/
theorem C8_counterexample :
    (handle_server_command ⟨[], [lc "admin", lc "ghost"], [], false, false⟩
      (lc "admin") (lc "/deop ghost")).1.ops = [lc "admin"] ∧
    lc "ghost" ∉ (([] : List (List Char × List Char)).map Prod.fst) :=
  ⟨by decide, by decide⟩

/-- C8 (amended): `/op` succeeds only when the target is registered, differs
    from the issuer, and is not yet an operator, and then appends exactly the
    target; `/deop` succeeds only when the target is currently an operator and
    differs from the issuer — registration is not checked; self-targeting of
    either command always leaves the server state unchanged. -/
theorem C8_amended (st : ServerState) (issuer target : List Char) :
    ((handle_server_command st issuer (lc "/op " ++ target)).1.ops ≠ st.ops →
      target ∈ st.creds.map Prod.fst ∧ target ≠ issuer ∧
      (handle_server_command st issuer (lc "/op " ++ target)).1.ops =
        st.ops ++ [target]) ∧
    ((handle_server_command st issuer (lc "/deop " ++ target)).1.ops ≠ st.ops →
      target ∈ st.ops ∧ target ≠ issuer) ∧
    (handle_server_command st issuer (lc "/op " ++ issuer)).1 = st ∧
    (handle_server_command st issuer (lc "/deop " ++ issuer)).1 = st := by
  refine ⟨?_, ?_, ?_, ?_⟩
  · intro hchange
    rcases handle_op_cases st issuer target with ⟨hone, heval⟩ | hunch
    · rw [heval] at hchange ⊢
      by_cases h1 : target = issuer
      · rw [if_pos h1] at hchange
        exact absurd rfl hchange
      rw [if_neg h1] at hchange ⊢
      by_cases h2 : (st.creds.find? (fun p => decide (p.1 = target))).isNone
      · rw [if_pos h2] at hchange
        exact absurd rfl hchange
      rw [if_neg h2] at hchange ⊢
      by_cases h3 : target ∈ st.ops
      · rw [if_pos h3] at hchange
        exact absurd rfl hchange
      rw [if_neg h3] at hchange ⊢
      refine ⟨?_, h1, rfl⟩
      have h2s : (st.creds.find? (fun p => decide (p.1 = target))).isSome := by
        cases hfind : st.creds.find? (fun p => decide (p.1 = target)) with
        | none => exact absurd (by rw [hfind]; rfl) h2
        | some p => rfl
      obtain ⟨p, hp⟩ := Option.isSome_iff_exists.mp h2s
      have hpmem := List.mem_of_find?_eq_some hp
      have hpeq : p.1 = target := by
        have := List.find?_some hp
        simpa using this
      exact hpeq ▸ List.mem_map_of_mem Prod.fst hpmem
    · exact absurd (congrArg ServerState.ops hunch) hchange
  · intro hchange
    rcases handle_deop_cases st issuer target with ⟨hone, heval⟩ | hunch
    · rw [heval] at hchange
      by_cases h1 : target = issuer
      · rw [if_pos h1] at hchange
        exact absurd rfl hchange
      rw [if_neg h1] at hchange
      by_cases h2 : target ∉ st.ops
      · rw [if_pos h2] at hchange
        exact absurd rfl hchange
      rw [if_neg h2] at hchange
      exact ⟨not_not.mp h2, h1⟩
    · exact absurd (congrArg ServerState.ops hunch) hchange
  · rcases handle_op_cases st issuer issuer with ⟨hone, heval⟩ | hunch
    · rw [heval, if_pos rfl]
    · exact hunch
  · rcases handle_deop_cases st issuer issuer with ⟨hone, heval⟩ | hunch
    · rw [heval, if_pos rfl]
    · exact hunch

/-- C8, witness: opping the registered non-operator `bob` succeeds and appends
    exactly `bob` to the operator list. -/
theorem C8_witness :
    (handle_server_command ⟨[], [], [(lc "bob", lc "h")], false, false⟩ (lc "admin")
        (lc "/op " ++ lc "bob")).1.ops ≠
      (⟨[], [], [(lc "bob", lc "h")], false, false⟩ : ServerState).ops ∧
    (lc "bob" ∈ ([(lc "bob", lc "h")] :
        List (List Char × List Char)).map Prod.fst ∧
      lc "bob" ≠ lc "admin" ∧
      (handle_server_command ⟨[], [], [(lc "bob", lc "h")], false, false⟩ (lc "admin")
        (lc "/op " ++ lc "bob")).1.ops = [] ++ [lc "bob"]) :=
  ⟨by decide,
    (C8_amended ⟨[], [], [(lc "bob", lc "h")], false, false⟩ (lc "admin")
      (lc "bob")).1 (by decide)⟩
